import Mathlib

/-!
Shallow embedding of the fan-out/fan-in collection pipeline of
prometheus-unified-exporter (src/main.go): per-target label injection,
the per-target fetch, the merge of same-named metric families, sorted
serialization, and the /metrics handler, plus a trace model of the
fan-in channel. The exposition-format codec is external to the core
(the spec treats it as a given with encode/decode primitives), so the
decode and encode primitives appear as parameters.
-/

namespace PUE

/-- One (name, value) label pair (dto.LabelPair with both fields set). -/
structure LabelPair where
  name : String
  value : String
deriving DecidableEq

/-- dto.MetricType: the type tag of a metric family. -/
inductive MetricType where
  | counter
  | gauge
  | summary
  | untyped
  | histogram
deriving DecidableEq

/-- One sample (dto.Metric). Only its label list is touched by the
pipeline; the numeric payload is carried through untouched and is
elided. -/
structure Metric where
  label : List LabelPair
deriving DecidableEq

/-- dto.MetricFamily as the text parser produces it: Name, Help, Type
and the sample list Metric are always set, and the parser's map key
equals Name, so a decode result is carried as a list of families keyed
by their own name field. -/
structure MetricFamily where
  name : String
  help : String
  type : MetricType
  metric : List Metric
deriving DecidableEq

/-- A configured target record (URL plus label set); the Go label map
is carried as its entry list. -/
structure Target where
  url : String
  labels : List LabelPair
deriving DecidableEq

/-- The label pairs appended to one sample by the inner loop of
addLabels (src/main.go):
`for labelName, labelValue := range labels { m.Label = append(m.Label,
&dto.LabelPair{Name: &labelName, Value: &labelValue}) }`.
The module declares go 1.20, so the two range variables are declared
once for the whole loop and every appended pair stores pointers to the
same two variables; the pairs are only read after the loop returns, by
which time both variables hold the entry iterated last. The observable
appended list is therefore one pair per entry of the iteration order,
every pair dereferencing to the last entry. `order` is the
(unspecified) iteration order of the Go label map. -/
def injectedPairs (order : List LabelPair) : List LabelPair :=
  match order.getLast? with
  | none => []
  | some last => List.replicate order.length last

/-- addLabels restricted to one sample: Go appends the loop's pairs to
m.Label in place. -/
def addLabelsMetric (order : List LabelPair) (m : Metric) : Metric :=
  { m with label := m.label ++ injectedPairs order }

/-- addLabels (src/main.go): inject the target's labels into every
sample of every decoded family. One iteration order is used for every
sample; Go may pick a fresh order per sample, which only widens the
nondeterminism the theorems quantify over. -/
def addLabels (order : List LabelPair) (metrics : List MetricFamily) : List MetricFamily :=
  metrics.map fun mf => { mf with metric := mf.metric.map (addLabelsMetric order) }

/-- Modelled from the spec: "append one label pair per (name, value) in
the target's label set", each appended pair carrying that entry's own
name and value. This is what addLabels is specified to do on one
sample; compare injectedPairs for what the go 1.20 code does. -/
def addLabelsMetricSpec (order : List LabelPair) (m : Metric) : Metric :=
  { m with label := m.label ++ order }

/-- C1: refuted by the code as written — the code is the slip. For the
two-entry label set with entries (a, 1) and (b, 2) iterated in that
order, addLabels appends two copies of the pair (b, 2) to an unlabelled
sample instead of the two entries themselves, because every appended
pair dereferences the shared go 1.20 range variables, which end at the
last entry. -/
theorem addLabels_appends_last_entry_copies :
    addLabelsMetric [⟨"a", "1"⟩, ⟨"b", "2"⟩] ⟨[]⟩ = ⟨[⟨"b", "2"⟩, ⟨"b", "2"⟩]⟩ ∧
    addLabelsMetric [⟨"a", "1"⟩, ⟨"b", "2"⟩] ⟨[]⟩ ≠
      addLabelsMetricSpec [⟨"a", "1"⟩, ⟨"b", "2"⟩] ⟨[]⟩ := by
  constructor
  · rfl
  · decide

/-- C2: refuted by the code as written — the code is the slip. Two
iteration orders of the same two-entry label set leave different label
multisets on the same unlabelled sample, because each order appends
copies of its own last entry; injection is therefore not commutative
with respect to label-set iteration order. -/
theorem addLabels_order_dependent :
    List.Perm [LabelPair.mk "a" "1", LabelPair.mk "b" "2"]
      [LabelPair.mk "b" "2", LabelPair.mk "a" "1"] ∧
    ¬ List.Perm (addLabelsMetric [⟨"a", "1"⟩, ⟨"b", "2"⟩] ⟨[]⟩).label
        (addLabelsMetric [⟨"b", "2"⟩, ⟨"a", "1"⟩] ⟨[]⟩).label := by
  constructor
  · decide
  · decide

/-- What the environment hands one call of fetchMetrics: http.Get fails
with a transport error, reading the body fails, or a full response
(status line plus body) arrives. -/
inductive FetchOutcome where
  | transportError (e : String)
  | readError (status : Nat) (e : String)
  | response (status : Nat) (body : String)
deriving DecidableEq

/-- fetchMetrics (src/main.go): on a transport error or a body-read
error it returns (nil, err) — the nil Go map ranges over nothing and is
carried here as the empty list; otherwise it hands the body to the
codec's decode primitive (expfmt TextParser.TextToMetricFamilies) and
returns that primitive's pair verbatim. The response status is never
inspected. -/
def fetchMetrics (decode : String → List MetricFamily × Option String) :
    FetchOutcome → List MetricFamily × Option String
  | FetchOutcome.transportError e => ([], some e)
  | FetchOutcome.readError _ e => ([], some e)
  | FetchOutcome.response _ body => decode body

/-- One target's run within a scrape: the iteration order of its label
map and what its fetch produced. -/
structure TargetRun where
  labelsOrder : List LabelPair
  outcome : FetchOutcome
deriving DecidableEq

/-- The value one target's goroutine delivers to the fan-in channel
(src/main.go handleMetrics): fetch, log any error (which does not change
the value), run addLabels in place — also on the map returned alongside
an error — and let the deferred send deliver the labelled families. -/
def taskOutput (decode : String → List MetricFamily × Option String)
    (tr : TargetRun) : List MetricFamily :=
  addLabels tr.labelsOrder (fetchMetrics decode tr.outcome).1

/-- The channel sends one target's goroutine performs: the single send
sits in a defer, so it happens exactly once on every path, success or
failure. -/
def taskSends (decode : String → List MetricFamily × Option String)
    (tr : TargetRun) : List (List MetricFamily) :=
  [taskOutput decode tr]

/-- First family with the given name, the Go map lookup
allMetricsFamilies[n]. -/
def lookupFam (nm : String) (fams : List MetricFamily) : Option MetricFamily :=
  fams.find? fun mf => mf.name == nm

/-- amf.Metric = append(amf.Metric, ms...) on the entry under nm: the
first (in Go, the only) family with that name gains the samples. -/
def appendToFirst (nm : String) (ms : List Metric) : List MetricFamily → List MetricFamily
  | [] => []
  | mf :: rest =>
    if mf.name = nm then { mf with metric := mf.metric ++ ms } :: rest
    else mf :: appendToFirst nm ms rest

/-- One step of the fan-in merge loop (src/main.go handleMetrics): if a
family with this name is already present, append the incoming samples
to it; otherwise insert the incoming family as-is under its name. -/
def mergeOne (acc : List MetricFamily) (mf : MetricFamily) : List MetricFamily :=
  match lookupFam mf.name acc with
  | some _ => appendToFirst mf.name mf.metric acc
  | none => acc ++ [mf]

/-- The whole fan-in merge: fold every received result, in received
order, into the accumulator map (carried as a name-keyed list). -/
def aggregate (results : List (List MetricFamily)) : List MetricFamily :=
  results.foldl (fun acc r => r.foldl mergeOne acc) []

/-- Samples stored under a name: the looked-up family's sample count,
zero when the name is absent. -/
def sampleCount (nm : String) (fams : List MetricFamily) : Nat :=
  match lookupFam nm fams with
  | some mf => mf.metric.length
  | none => 0

/-- A concrete decode primitive used in concrete scenarios: it
recognises the one-line exposition body "up 1\n" — one untyped family
named up with a single unlabelled sample, exactly what the real codec
decodes it to — and reports a parse error with no families on anything
else. -/
def decodeUp : String → List MetricFamily × Option String := fun b =>
  if b = "up 1\n" then ([⟨"up", "", MetricType.untyped, [⟨[]⟩]⟩], none)
  else ([], some "text format parsing error")

/-- The samples of every family named nm, concatenated in list order. -/
def metricsIn (nm : String) (l : List MetricFamily) : List Metric :=
  (l.map fun mf => if mf.name = nm then mf.metric else []).flatten

@[simp]
theorem metricsIn_nil (nm : String) : metricsIn nm [] = [] := rfl

@[simp]
theorem metricsIn_cons (nm : String) (mf : MetricFamily) (rest : List MetricFamily) :
    metricsIn nm (mf :: rest) =
      (if mf.name = nm then mf.metric else []) ++ metricsIn nm rest := by
  simp [metricsIn]

theorem metricsIn_append (nm : String) (l1 l2 : List MetricFamily) :
    metricsIn nm (l1 ++ l2) = metricsIn nm l1 ++ metricsIn nm l2 := by
  simp [metricsIn]

theorem metricsIn_join (nm : String) (rs : List (List MetricFamily)) :
    metricsIn nm rs.flatten = (rs.map (metricsIn nm)).flatten := by
  induction rs with
  | nil => rfl
  | cons r rest ih => simp [metricsIn_append, ih]

@[simp]
theorem lookupFam_nil (nm : String) : lookupFam nm [] = none := rfl

theorem lookupFam_cons (nm : String) (mf : MetricFamily) (rest : List MetricFamily) :
    lookupFam nm (mf :: rest) = if mf.name = nm then some mf else lookupFam nm rest := by
  by_cases h : mf.name = nm
  · have hb : (mf.name == nm) = true := by simp [h]
    simp [lookupFam, List.find?, hb, h]
  · have hb : (mf.name == nm) = false := by simp [h]
    simp [lookupFam, List.find?, hb, h]

theorem lookupFam_append (nm : String) (l1 l2 : List MetricFamily) :
    lookupFam nm (l1 ++ l2) =
      match lookupFam nm l1 with
      | some a => some a
      | none => lookupFam nm l2 := by
  induction l1 with
  | nil => simp
  | cons mf rest ih =>
    by_cases h : mf.name = nm
    · simp [lookupFam_cons, h]
    · simp [lookupFam_cons, h, ih]

theorem lookupFam_appendToFirst_self (nm : String) (ms : List Metric)
    (acc : List MetricFamily) (b : MetricFamily) (h : lookupFam nm acc = some b) :
    lookupFam nm (appendToFirst nm ms acc) = some { b with metric := b.metric ++ ms } := by
  induction acc with
  | nil => simp at h
  | cons mf rest ih =>
    by_cases hm : mf.name = nm
    · rw [lookupFam_cons, if_pos hm] at h
      have hb : mf = b := by exact Option.some.inj h
      subst hb
      simp [appendToFirst, hm, lookupFam_cons]
    · rw [lookupFam_cons, if_neg hm] at h
      simp [appendToFirst, hm, lookupFam_cons, ih h]

theorem lookupFam_appendToFirst_other (nm nm2 : String) (hne : nm2 ≠ nm)
    (ms : List Metric) (acc : List MetricFamily) :
    lookupFam nm (appendToFirst nm2 ms acc) = lookupFam nm acc := by
  induction acc with
  | nil => rfl
  | cons mf rest ih =>
    by_cases hm : mf.name = nm2
    · have hn : ¬ mf.name = nm := by rw [hm]; exact hne
      simp [appendToFirst, hm, lookupFam_cons, hn, hne]
    · simp [appendToFirst, hm, lookupFam_cons, ih]

theorem lookupFam_mergeOne_self (acc : List MetricFamily) (mf : MetricFamily) :
    lookupFam mf.name (mergeOne acc mf) =
      match lookupFam mf.name acc with
      | some a => some { a with metric := a.metric ++ mf.metric }
      | none => some mf := by
  unfold mergeOne
  cases h : lookupFam mf.name acc with
  | some a => simp [lookupFam_appendToFirst_self mf.name mf.metric acc a h]
  | none => simp [lookupFam_append, h, lookupFam_cons]

theorem lookupFam_mergeOne_other (acc : List MetricFamily) (mf : MetricFamily)
    (nm : String) (hne : mf.name ≠ nm) :
    lookupFam nm (mergeOne acc mf) = lookupFam nm acc := by
  unfold mergeOne
  cases h : lookupFam mf.name acc with
  | some a => simp [lookupFam_appendToFirst_other nm mf.name hne mf.metric acc]
  | none =>
    rw [lookupFam_append]
    cases h2 : lookupFam nm acc with
    | some b => simp
    | none => simp [lookupFam_cons, hne]

/-- Running the fan-in merge loop over one received list: the family
stored under a name afterwards is the one already in the accumulator
with every matching incoming sample list appended, or else the first
matching incoming family carrying all matching samples of the list. -/
theorem lookupFam_foldl_mergeOne (nm : String) (l acc : List MetricFamily) :
    lookupFam nm (l.foldl mergeOne acc) =
      match lookupFam nm acc with
      | some a => some { a with metric := a.metric ++ metricsIn nm l }
      | none =>
        match l.find? (fun mf => mf.name == nm) with
        | some first => some { first with metric := metricsIn nm l }
        | none => none := by
  induction l generalizing acc with
  | nil =>
    cases h : lookupFam nm acc with
    | some a => simp [h]
    | none => simp [h]
  | cons mf rest ih =>
    rw [List.foldl_cons, ih (mergeOne acc mf)]
    by_cases hm : mf.name = nm
    · subst hm
      rw [lookupFam_mergeOne_self]
      cases h : lookupFam mf.name acc with
      | some a => simp [List.find?, metricsIn_cons, List.append_assoc]
      | none => simp [List.find?, metricsIn_cons]
    · have hb : (mf.name == nm) = false := by simp [hm]
      rw [lookupFam_mergeOne_other acc mf nm hm]
      cases h : lookupFam nm acc with
      | some a => simp [metricsIn_cons, hm]
      | none => simp [List.find?, hb, metricsIn_cons, hm]

theorem aggregate_eq_foldl_join (results : List (List MetricFamily)) :
    aggregate results = (results.flatten).foldl mergeOne [] := by
  suffices h : ∀ acc, results.foldl (fun a r => r.foldl mergeOne a) acc
      = (results.flatten).foldl mergeOne acc by
    exact h []
  induction results with
  | nil => intro acc; rfl
  | cons r rest ih => intro acc; simp [List.foldl_append, ih]

theorem sampleCount_cons (nm : String) (mf : MetricFamily) (rest : List MetricFamily) :
    sampleCount nm (mf :: rest) =
      if mf.name = nm then mf.metric.length else sampleCount nm rest := by
  by_cases hm : mf.name = nm <;> simp [sampleCount, lookupFam_cons, hm]

theorem metricsIn_eq_nil_of_notin (nm : String) (r : List MetricFamily)
    (h : ∀ mf ∈ r, mf.name ≠ nm) : metricsIn nm r = [] := by
  induction r with
  | nil => rfl
  | cons mf rest ih =>
    have h1 := h mf (List.mem_cons_self mf rest)
    simp [metricsIn_cons, h1, ih fun x hx => h x (List.mem_cons_of_mem mf hx)]

theorem sampleCount_eq_metricsIn (nm : String) (r : List MetricFamily)
    (h : (r.map MetricFamily.name).Nodup) :
    sampleCount nm r = (metricsIn nm r).length := by
  induction r with
  | nil => rfl
  | cons mf rest ih =>
    rw [List.map_cons, List.nodup_cons] at h
    obtain ⟨hnotin, hrest⟩ := h
    by_cases hm : mf.name = nm
    · subst hm
      have h0 : metricsIn mf.name rest = [] := by
        refine metricsIn_eq_nil_of_notin mf.name rest fun x hx heq => hnotin ?_
        rw [← heq]
        exact List.mem_map_of_mem MetricFamily.name hx
      simp [sampleCount_cons, metricsIn_cons, h0]
    · simp [sampleCount_cons, metricsIn_cons, hm, ih hrest]

theorem sum_map_congr {α : Type} (l : List α) (f g : α → Nat)
    (h : ∀ x ∈ l, f x = g x) : (l.map f).sum = (l.map g).sum := by
  induction l with
  | nil => rfl
  | cons a rest ih =>
    simp only [List.map_cons, List.sum_cons]
    rw [h a (List.mem_cons_self a rest), ih fun x hx => h x (List.mem_cons_of_mem a hx)]

/-- C4: the merge is counting-exact. Provided every per-target decode
result keys its families by distinct names (the parser returns a map,
so this always holds for real results), the number of samples stored
under any name after the fan-in merge is the sum of that family's
sample counts over all contributing results. -/
theorem merged_sample_count (results : List (List MetricFamily)) (nm : String)
    (h : ∀ r ∈ results, (r.map MetricFamily.name).Nodup) :
    sampleCount nm (aggregate results) = (results.map (sampleCount nm)).sum := by
  have h3 : sampleCount nm (aggregate results) = (metricsIn nm results.flatten).length := by
    rw [aggregate_eq_foldl_join]
    unfold sampleCount
    rw [lookupFam_foldl_mergeOne nm results.flatten [], lookupFam_nil]
    cases hf : (results.flatten).find? (fun mf => mf.name == nm) with
    | some first => simp
    | none =>
      have hnone : ∀ mf ∈ results.flatten, mf.name ≠ nm := by
        intro mf hmf
        have := List.find?_eq_none.mp hf mf hmf
        simpa using this
      simp [metricsIn_eq_nil_of_notin nm results.flatten hnone]
  rw [h3, metricsIn_join, List.length_flatten, List.map_map]
  exact sum_map_congr results _ _ fun r hr => (sampleCount_eq_metricsIn nm r (h r hr)).symm

/-- Witness for C4 at a concrete scrape: two targets both report family
up (with two samples and one sample); the merged count is their sum. -/
theorem merged_sample_count_witness :
    sampleCount "up"
        (aggregate [[⟨"up", "h1", MetricType.untyped, [⟨[]⟩, ⟨[]⟩]⟩],
          [⟨"up", "h2", MetricType.gauge, [⟨[]⟩]⟩]])
      = ([[⟨"up", "h1", MetricType.untyped, [⟨[]⟩, ⟨[]⟩]⟩],
          [⟨"up", "h2", MetricType.gauge, [⟨[]⟩]⟩]].map (sampleCount "up")).sum :=
  merged_sample_count _ "up" (by decide)

/-- Family metadata: help text and type tag. -/
def metaOf (mf : MetricFamily) : String × MetricType := (mf.help, mf.type)

/-- C7: when several targets report the same family name, the merged
family keeps the help text and type tag of the first processed result
that contained the name — later copies only append their samples, whose
concatenation the merged family carries, and their metadata is dropped
without any consistency check. -/
theorem merged_metadata_first_wins (results : List (List MetricFamily)) (nm : String) :
    (lookupFam nm (aggregate results)).map metaOf
      = ((results.flatten).find? fun mf => mf.name == nm).map metaOf ∧
    (lookupFam nm (aggregate results)).map MetricFamily.metric
      = ((results.flatten).find? fun mf => mf.name == nm).map
          (fun _ => metricsIn nm results.flatten) := by
  rw [aggregate_eq_foldl_join]
  have hfold := lookupFam_foldl_mergeOne nm results.flatten []
  rw [lookupFam_nil] at hfold
  rw [hfold]
  cases hf : (results.flatten).find? (fun mf => mf.name == nm) with
  | some first => exact ⟨by simp [metaOf], by simp⟩
  | none => exact ⟨by simp, by simp⟩

/-- serializeMetrics (src/main.go) first collects the merged map's
families into a slice and sorts it with sort.Slice under the comparison
`*lst[i].Name < *lst[j].Name` (Go byte-wise string comparison, which on
the parser's valid UTF-8 output coincides with this ordinal order). The
merged map's keys are distinct, so every comparison sort — the unstable
sort.Slice included — yields the same, unique, sorted arrangement,
modelled by insertion sort. -/
def sortByName (metricFamilies : List MetricFamily) : List MetricFamily :=
  List.insertionSort (fun a b => a.name ≤ b.name) metricFamilies

/-- Concatenation of the chunks an encoder writes to the response
stream, in write order. -/
def concatAll : List String → String
  | [] => ""
  | s :: rest => s ++ concatAll rest

/-- The encoding loop of serializeMetrics: one encoder.Encode call per
family in slice order; each successful call's bytes go straight to the
writer, and the first failing call's error is returned at once, with no
further family encoded. The pair carries the bytes written and the
returned error, if any. -/
def encodeLoop (encode : MetricFamily → Except String String) :
    List MetricFamily → String × Option String
  | [] => ("", none)
  | mf :: rest =>
    match encode mf with
    | Except.error e => ("", some e)
    | Except.ok s =>
      let r := encodeLoop encode rest
      (s ++ r.1, r.2)

/-- serializeMetrics (src/main.go): sort the families by name, then
encode them in that order with the codec's family-encode primitive. -/
def serializeMetrics (encode : MetricFamily → Except String String)
    (metricFamilies : List MetricFamily) : String × Option String :=
  encodeLoop encode (sortByName metricFamilies)

/-- What the /metrics handler leaves on the wire: the HTTP status, the
body bytes written, and the serializer error it logged, if any. -/
structure ScrapeResponse where
  status : Nat
  body : String
  serializeError : Option String
deriving DecidableEq

/-- handleMetrics (src/main.go): fan out one task per target, receive
exactly one result per target, merge them in received order, serialize
the merged map to the response writer. No code path calls WriteHeader
or http.Error, so the status is the implicit 200; a serializer error is
only logged, and the bytes already written stand. -/
def handleMetrics (decode : String → List MetricFamily × Option String)
    (encode : MetricFamily → Except String String)
    (runs : List TargetRun) : ScrapeResponse :=
  let merged := aggregate (runs.map (taskOutput decode))
  let out := serializeMetrics encode merged
  { status := 200, body := out.1, serializeError := out.2 }

instance : IsTotal MetricFamily (fun a b => a.name ≤ b.name) :=
  ⟨fun a b => le_total a.name b.name⟩

instance : IsTrans MetricFamily (fun a b => a.name ≤ b.name) :=
  ⟨fun _ _ _ h1 h2 => le_trans h1 h2⟩

instance : IsAntisymm MetricFamily (fun a b => a.name < b.name) :=
  ⟨fun _ _ h1 h2 => absurd h2 (lt_asymm h1)⟩

theorem pairwise_lt_of_sorted_le (l : List MetricFamily)
    (hs : l.Pairwise (fun a b => a.name ≤ b.name))
    (hnd : (l.map MetricFamily.name).Nodup) :
    l.Pairwise (fun a b => a.name < b.name) := by
  have hne : l.Pairwise (fun a b => a.name ≠ b.name) := List.pairwise_map.mp hnd
  exact (hs.and hne).imp fun h => lt_of_le_of_ne h.1 h.2

theorem sorted_lt_unique (l1 l2 : List MetricFamily) (hp : List.Perm l1 l2)
    (h1 : l1.Pairwise (fun a b => a.name < b.name))
    (h2 : l2.Pairwise (fun a b => a.name < b.name)) : l1 = l2 :=
  List.eq_of_perm_of_sorted hp h1 h2

theorem encodeLoop_all_ok (encode : MetricFamily → Except String String)
    (g : MetricFamily → String) (l : List MetricFamily)
    (hok : ∀ mf ∈ l, encode mf = Except.ok (g mf)) :
    encodeLoop encode l = (concatAll (l.map g), none) := by
  induction l with
  | nil => rfl
  | cons mf rest ih =>
    have hmf := hok mf (List.mem_cons_self mf rest)
    simp [encodeLoop, hmf, ih fun x hx => hok x (List.mem_cons_of_mem mf hx), concatAll]

/-- C5: for a merged result with distinct family names (merged-map keys
are unique) and at least two of them, the serializer encodes every
family exactly once, in strictly ascending ordinal order of family
name, with identical output for every iteration order of the merged
mapping; when the codec accepts every family, the bytes written are the
encodings concatenated in that sorted order. -/
theorem serializer_sorted_deterministic (l : List MetricFamily)
    (g : MetricFamily → String) (encode : MetricFamily → Except String String)
    (hnd : (l.map MetricFamily.name).Nodup) (htwo : 2 ≤ l.length)
    (hok : ∀ mf ∈ l, encode mf = Except.ok (g mf)) :
    List.Perm (sortByName l) l ∧
    (sortByName l).Pairwise (fun a b => a.name < b.name) ∧
    (∀ l2, List.Perm l2 l → sortByName l2 = sortByName l) ∧
    serializeMetrics encode l = (concatAll ((sortByName l).map g), none) := by
  have hperm : List.Perm (sortByName l) l := by
    unfold sortByName; exact List.perm_insertionSort (fun a b => a.name ≤ b.name) l
  have hnds : ((sortByName l).map MetricFamily.name).Nodup :=
    ((hperm.map MetricFamily.name).nodup_iff).mpr hnd
  have hsorted : (sortByName l).Pairwise (fun a b => a.name ≤ b.name) := by
    unfold sortByName; exact List.sorted_insertionSort (fun a b => a.name ≤ b.name) l
  have hlt : (sortByName l).Pairwise (fun a b => a.name < b.name) :=
    pairwise_lt_of_sorted_le _ hsorted hnds
  refine ⟨hperm, hlt, ?_, ?_⟩
  · intro l2 hl2
    have hperm2 : List.Perm (sortByName l2) l2 := by
      unfold sortByName; exact List.perm_insertionSort (fun a b => a.name ≤ b.name) l2
    have hnd2 : ((sortByName l2).map MetricFamily.name).Nodup :=
      ((hperm2.map MetricFamily.name).nodup_iff).mpr
        (((hl2.map MetricFamily.name).nodup_iff).mpr hnd)
    have hsorted2 : (sortByName l2).Pairwise (fun a b => a.name ≤ b.name) := by
      unfold sortByName; exact List.sorted_insertionSort (fun a b => a.name ≤ b.name) l2
    have hlt2 : (sortByName l2).Pairwise (fun a b => a.name < b.name) :=
      pairwise_lt_of_sorted_le _ hsorted2 hnd2
    exact sorted_lt_unique _ _ (hperm2.trans (hl2.trans hperm.symm)) hlt2 hlt
  · unfold serializeMetrics
    exact encodeLoop_all_ok encode g (sortByName l)
      fun mf hmf => hok mf (hperm.mem_iff.mp hmf)

/-- A one-sample untyped family named a. -/
def famA : MetricFamily := ⟨"a", "", MetricType.untyped, [⟨[]⟩]⟩

/-- A one-sample untyped family named b. -/
def famB : MetricFamily := ⟨"b", "", MetricType.untyped, [⟨[]⟩]⟩

/-- A concrete always-succeeding encode primitive: each family encodes
to its own name. -/
def encodeName : MetricFamily → Except String String := fun mf => Except.ok mf.name

/-- Witness for C5 on the two-family merged result {b, a}: sorting is a
permutation, strictly ascending, iteration-order independent, and the
body is the sorted concatenation of the encodings. -/
theorem serializer_sorted_deterministic_witness :
    List.Perm (sortByName [famB, famA]) [famB, famA] ∧
    (sortByName [famB, famA]).Pairwise (fun a b => a.name < b.name) ∧
    sortByName [famA, famB] = sortByName [famB, famA] ∧
    serializeMetrics encodeName [famB, famA]
      = (concatAll ((sortByName [famB, famA]).map MetricFamily.name), none) := by
  have h := serializer_sorted_deterministic [famB, famA] MetricFamily.name encodeName
    (by decide) (by decide) (fun mf _ => rfl)
  exact ⟨h.1, h.2.1, h.2.2.1 [famA, famB] (by decide), h.2.2.2⟩

/-- C8: if the codec's encode primitive rejects some family, the
serializer stops at the first failing family and returns its error:
only the families sorted before it are encoded, their bytes are already
on the wire and stand, and the handler logs the error while the status
stays 200 — no suppression and no retry. -/
theorem serializer_first_error_propagates
    (decode : String → List MetricFamily × Option String)
    (encode : MetricFamily → Except String String) (runs : List TargetRun)
    (pre post : List MetricFamily) (mf : MetricFamily) (e : String)
    (g : MetricFamily → String)
    (hsort : sortByName (aggregate (runs.map (taskOutput decode))) = pre ++ mf :: post)
    (hpre : ∀ x ∈ pre, encode x = Except.ok (g x))
    (herr : encode mf = Except.error e) :
    handleMetrics decode encode runs
      = { status := 200, body := concatAll (pre.map g), serializeError := some e } := by
  have hloop : ∀ p : List MetricFamily, (∀ x ∈ p, encode x = Except.ok (g x)) →
      encodeLoop encode (p ++ mf :: post) = (concatAll (p.map g), some e) := by
    intro p
    induction p with
    | nil => intro _; simp [encodeLoop, herr, concatAll]
    | cons a rest ih =>
      intro hp
      have ha := hp a (List.mem_cons_self a rest)
      simp [encodeLoop, ha, ih fun x hx => hp x (List.mem_cons_of_mem a hx), concatAll]
  simp only [handleMetrics, serializeMetrics]
  rw [hsort, hloop pre hpre]

/-- The one-sample untyped family up, what the codec decodes the body
"up 1\n" to. -/
def famUp : MetricFamily := ⟨"up", "", MetricType.untyped, [⟨[]⟩]⟩

/-- An encode primitive that rejects every family. -/
def encodeReject : MetricFamily → Except String String :=
  fun _ => Except.error "malformed family"

/-- Witness for C8: one target delivers family up, the codec rejects
it; the handler answers 200 with an empty body and logs the error. -/
theorem serializer_first_error_propagates_witness :
    handleMetrics decodeUp encodeReject [⟨[], FetchOutcome.response 200 "up 1\n"⟩]
      = { status := 200, body := "", serializeError := some "malformed family" } :=
  serializer_first_error_propagates decodeUp encodeReject
    [⟨[], FetchOutcome.response 200 "up 1\n"⟩] [] [] famUp "malformed family"
    (fun _ => "") (by decide) (fun x hx => absurd hx (List.not_mem_nil x)) rfl

/-- C3 counterexample: fetchMetrics never inspects the response status.
A target answering 503 with the parseable body "up 1\n" still
contributes one up sample to the merged result, although the claim says
a non-success status makes the target contribute nothing. -/
theorem nonsuccess_status_still_contributes :
    (503 : Nat) ≠ 200 ∧
    sampleCount "up"
        (aggregate ([⟨[], FetchOutcome.response 503 "up 1\n"⟩].map (taskOutput decodeUp)))
      = 1 := by
  constructor
  · decide
  · decide

/-- The fetch outcomes that reach the return-nil-and-error paths of
fetchMetrics: a transport error of http.Get or a body-read error. -/
def isHardFailure : FetchOutcome → Bool
  | FetchOutcome.transportError _ => true
  | FetchOutcome.readError _ _ => true
  | FetchOutcome.response _ _ => false

theorem taskOutput_hardFailure (decode : String → List MetricFamily × Option String)
    (tr : TargetRun) (h : isHardFailure tr.outcome = true) :
    taskOutput decode tr = [] := by
  cases ho : tr.outcome with
  | transportError e => simp [taskOutput, fetchMetrics, addLabels, ho]
  | readError s e => simp [taskOutput, fetchMetrics, addLabels, ho]
  | response s b => rw [ho] at h; simp [isHardFailure] at h

/-- C3 as amended: a target whose fetch fails with a transport error or
a body-read error contributes no metric families this cycle; every
other target's contribution is untouched, and the response is composed
from the remaining results with status 200. (A non-success HTTP status
alone is not a failure — the status is never inspected — and on a
decode error the families the decoder returned alongside the error are
still contributed.) -/
theorem hard_failed_target_contributes_nothing
    (decode : String → List MetricFamily × Option String)
    (encode : MetricFamily → Except String String)
    (pre post : List TargetRun) (tr : TargetRun)
    (h : isHardFailure tr.outcome = true) :
    handleMetrics decode encode (pre ++ tr :: post)
      = handleMetrics decode encode (pre ++ post) ∧
    (handleMetrics decode encode (pre ++ tr :: post)).status = 200 := by
  have hagg : aggregate ((pre ++ tr :: post).map (taskOutput decode))
      = aggregate ((pre ++ post).map (taskOutput decode)) := by
    rw [aggregate_eq_foldl_join, aggregate_eq_foldl_join]
    have hj : ((pre ++ tr :: post).map (taskOutput decode)).flatten
        = ((pre ++ post).map (taskOutput decode)).flatten := by
      simp [List.map_append, List.flatten_append, taskOutput_hardFailure decode tr h]
    rw [hj]
  constructor
  · unfold handleMetrics
    rw [hagg]
  · rfl

/-- Witness for C3 as amended: a healthy target plus a target whose
connection was refused; dropping the failed target leaves the response
unchanged, and the status is 200. -/
theorem hard_failed_target_contributes_nothing_witness :
    handleMetrics decodeUp encodeName
        ([⟨[], FetchOutcome.response 200 "up 1\n"⟩]
          ++ (⟨[], FetchOutcome.transportError "connection refused"⟩ : TargetRun) :: [])
      = handleMetrics decodeUp encodeName ([⟨[], FetchOutcome.response 200 "up 1\n"⟩] ++ []) ∧
    (handleMetrics decodeUp encodeName
        ([⟨[], FetchOutcome.response 200 "up 1\n"⟩]
          ++ (⟨[], FetchOutcome.transportError "connection refused"⟩ : TargetRun) :: [])).status
      = 200 :=
  hard_failed_target_contributes_nothing decodeUp encodeName
    [⟨[], FetchOutcome.response 200 "up 1\n"⟩] [] _ rfl

theorem flatten_taskOutputs_nil (decode : String → List MetricFamily × Option String) :
    ∀ runs : List TargetRun, (∀ tr ∈ runs, isHardFailure tr.outcome = true) →
      (runs.map (taskOutput decode)).flatten = [] := by
  intro runs
  induction runs with
  | nil => intro _; rfl
  | cons tr rest ih =>
    intro h
    simp [taskOutput_hardFailure decode tr (h tr (List.mem_cons_self tr rest)),
      ih fun x hx => h x (List.mem_cons_of_mem tr hx)]

/-- C10: when every target's fetch fails outright (every fan-in result
is the nil family map), the request still completes: label injection
and the merge loop range over nothing, the merged result is empty, the
serializer encodes nothing, and the handler answers 200 with an empty
body and no error. -/
theorem all_failed_empty_success (decode : String → List MetricFamily × Option String)
    (encode : MetricFamily → Except String String) (runs : List TargetRun)
    (h : ∀ tr ∈ runs, isHardFailure tr.outcome = true) :
    handleMetrics decode encode runs
      = { status := 200, body := "", serializeError := none } := by
  have hagg : aggregate (runs.map (taskOutput decode)) = [] := by
    rw [aggregate_eq_foldl_join, flatten_taskOutputs_nil decode runs h]
    rfl
  simp only [handleMetrics]
  rw [hagg]
  rfl

/-- Witness for C10: both targets fail (refused connection, reset body
read); the scrape returns 200 with an empty body. -/
theorem all_failed_empty_success_witness :
    handleMetrics decodeUp encodeName
        [⟨[], FetchOutcome.transportError "connection refused"⟩,
          ⟨[], FetchOutcome.readError 200 "connection reset"⟩]
      = { status := 200, body := "", serializeError := none } :=
  all_failed_empty_success decodeUp encodeName _ (by decide)

/-- C6: every target task sends exactly one result to the fan-in
channel — the send sits in a defer, so success and failure alike yield
one send — and the handler's receive loop hands the aggregation exactly
one received result per configured target. -/
theorem one_send_per_target (decode : String → List MetricFamily × Option String)
    (runs : List TargetRun) :
    ((runs.map (taskSends decode)).flatten).length = runs.length ∧
    (∀ tr : TargetRun, (taskSends decode tr).length = 1) ∧
    (runs.map (taskOutput decode)).length = runs.length := by
  have hflat : (runs.map (taskSends decode)).flatten = runs.map (taskOutput decode) := by
    induction runs with
    | nil => rfl
    | cons tr rest ih => simp [taskSends, ih]
  exact ⟨by rw [hflat, List.length_map], fun tr => rfl, List.length_map _ _⟩

/-- One interaction with the fan-in channel, as seen by the channel. -/
inductive ChanEvent where
  | send
  | recv
deriving DecidableEq

/-- Sends in a trace of channel events. -/
def sendCount (tr : List ChanEvent) : Nat :=
  tr.countP fun e => decide (e = ChanEvent.send)

/-- Receives in a trace of channel events. -/
def recvCount (tr : List ChanEvent) : Nat :=
  tr.countP fun e => decide (e = ChanEvent.recv)

/-- The fan-in channel's capacity:
make(chan map[string]*dto.MetricFamily, len(cfg.Targets)). -/
def chanCapacity (targets : List Target) : Nat := targets.length

/-- C9: the fan-in channel is created with capacity equal to the number
of targets, and a whole scrape performs at most that many sends (one
deferred send per target task), so at the moment of any send the buffer
occupancy — sends so far minus receives so far — is below capacity:
no send ever blocks waiting for the handler to receive. -/
theorem send_never_blocks (targets : List Target) (tr : List ChanEvent)
    (hsends : sendCount tr ≤ chanCapacity targets) :
    chanCapacity targets = targets.length ∧
    ∀ pre post, tr = pre ++ ChanEvent.send :: post →
      sendCount pre - recvCount pre < chanCapacity targets := by
  refine ⟨rfl, fun pre post heq => ?_⟩
  have h1 : sendCount tr = sendCount pre + sendCount post + 1 := by
    subst heq
    simp [sendCount, List.countP_append, List.countP_cons]
    omega
  have h2 := Nat.sub_le (sendCount pre) (recvCount pre)
  omega

/-- Witness for C9 with two targets: a trace of two sends, the first
send happening on an empty buffer, stays below the capacity of two. -/
theorem send_never_blocks_witness :
    sendCount [ChanEvent.send] - recvCount [ChanEvent.send]
      < chanCapacity [⟨"http://a:9100/metrics", []⟩, ⟨"http://b:9100/metrics", []⟩] :=
  (send_never_blocks [⟨"http://a:9100/metrics", []⟩, ⟨"http://b:9100/metrics", []⟩]
    [ChanEvent.send, ChanEvent.send] (by decide)).2 [ChanEvent.send] [] rfl

end PUE
